import Mathlib

/-!
Verification of the GPT-BigCode example model, the SGD optimizer and the
standalone linear layers of this repository, by a shallow embedding of the
Rust sources into Lean.  Tensors are modelled as a shape together with flat
row-major data over `ℚ`; fallible Rust functions return `Except CErr`.
-/

set_option autoImplicit false
set_option maxHeartbeats 1000000

namespace Candle

/-- A tensor: a shape and flat row-major data. -/
structure RTensor (α : Type) where
  shape : List Nat
  data : List α
  deriving DecidableEq, Repr

/-- Errors surfaced by the embedded code.  `subOverflow` models a Rust
`usize` subtraction underflow (a panic under debug assertions), which is not
an ordinary error value. -/
inductive CErr where
  | missingParameter (name : String)
  | shapeMismatch (name : String) (expected got : List Nat)
  | invalidIndex (idx size : Nat)
  | narrowOutOfBounds (dim start len size : Nat)
  | matmulShape (lhs rhs : List Nat)
  | addShape (lhs rhs : List Nat)
  | dimsRank (expected got : Nat)
  | subShape (lhs rhs : Nat)
  | subOverflow
  deriving DecidableEq, Repr

deriving instance DecidableEq for Except

/-- A `VarBuilder`: a named parameter store (full dotted names mapped to
tensors) together with the current path. -/
structure VarBuilder where
  store : List (String × RTensor ℚ)
  path : List String
  deriving DecidableEq

/-- `vb.pp(s)` pushes one path component, as in the Rust source. -/
def VarBuilder.pp (vb : VarBuilder) (s : String) : VarBuilder :=
  ⟨vb.store, vb.path ++ [s]⟩

/-- Joins path components with dots in front of a final name. -/
def joinName : List String → String → String
  | [], name => name
  | p :: ps, name => p ++ "." ++ joinName ps name

/-- The full dotted name of a parameter under the current path. -/
def VarBuilder.fullName (vb : VarBuilder) (name : String) : String :=
  joinName vb.path name

/-- `vb.get(shape, name)`: looks the parameter up and checks its shape,
failing with `missingParameter` or `shapeMismatch`. -/
def VarBuilder.get (vb : VarBuilder) (shape : List Nat) (name : String) :
    Except CErr (RTensor ℚ) :=
  match vb.store.lookup (vb.fullName name) with
  | none => .error (.missingParameter (vb.fullName name))
  | some t =>
    if t.shape = shape then .ok t
    else .error (.shapeMismatch (vb.fullName name) shape t.shape)

/-- A `candle_nn::Linear`: weight of shape (out, in) and optional bias. -/
structure Linear where
  weight : RTensor ℚ
  bias : Option (RTensor ℚ)
  deriving DecidableEq

/-- A `candle_nn::Embedding`: a table and the hidden size. -/
structure Embedding where
  embeddings : RTensor ℚ
  hidden_size : Nat
  deriving DecidableEq

/-- A `candle_nn::LayerNorm`: scale, shift and epsilon. -/
structure LayerNorm where
  weight : RTensor ℚ
  bias : RTensor ℚ
  eps : ℚ
  deriving DecidableEq

/-- `linear` from `bigcode/model.rs`: fetches a (size2, size1) weight and,
when requested, a (size2) bias. -/
def linear (size1 size2 : Nat) (hasBias : Bool) (vb : VarBuilder) :
    Except CErr Linear := do
  let weight ← vb.get [size2, size1] "weight"
  let bias ←
    if hasBias then do
      let b ← vb.get [size2] "bias"
      pure (some b)
    else
      pure none
  return Linear.mk weight bias

/-- `embedding` from `bigcode/model.rs`. -/
def embedding (vocab_size hidden_size : Nat) (vb : VarBuilder) :
    Except CErr Embedding := do
  let embeddings ← vb.get [vocab_size, hidden_size] "weight"
  return Embedding.mk embeddings hidden_size

/-- `layer_norm` from `bigcode/model.rs`: tries `weight`/`bias`, falls back
to `gamma`/`beta`, and on a double failure returns the first error of the
primary pair. -/
def layer_norm (size : Nat) (eps : ℚ) (vb : VarBuilder) :
    Except CErr LayerNorm := do
  let wb ←
    match vb.get [size] "weight", vb.get [size] "bias" with
    | .ok weight, .ok bias => pure (weight, bias)
    | .error err, _ | _, .error err =>
      match vb.get [size] "gamma", vb.get [size] "beta" with
      | .ok weight, .ok bias => (pure (weight, bias) : Except CErr _)
      | _, _ => .error err
  return LayerNorm.mk wb.1 wb.2 eps

/-- A store holding scale `w` and shift `b` under the primary naming. -/
def primaryStore (w b : RTensor ℚ) : VarBuilder :=
  ⟨[("weight", w), ("bias", b)], []⟩

/-- A store holding the same values under the fallback naming. -/
def fallbackStore (w b : RTensor ℚ) : VarBuilder :=
  ⟨[("gamma", w), ("beta", b)], []⟩

theorem layer_norm_primary (vb : VarBuilder) (size : Nat) (eps : ℚ)
    (w b : RTensor ℚ)
    (hw : vb.get [size] "weight" = .ok w)
    (hb : vb.get [size] "bias" = .ok b) :
    layer_norm size eps vb = .ok ⟨w, b, eps⟩ := by
  simp [layer_norm, hw, hb]
  rfl

theorem layer_norm_fallback_equiv (size : Nat) (eps : ℚ)
    (w b : RTensor ℚ) (hw : w.shape = [size]) (hb : b.shape = [size]) :
    layer_norm size eps (primaryStore w b)
      = layer_norm size eps (fallbackStore w b) := by
  rcases w with ⟨ws, wd⟩
  rcases b with ⟨bs, bd⟩
  simp only [RTensor.shape] at hw hb
  subst hw hb
  simp [layer_norm, primaryStore, fallbackStore, VarBuilder.get,
    VarBuilder.fullName, joinName, List.lookup]

theorem layer_norm_original_error (vb : VarBuilder) (size : Nat) (eps : ℚ)
    (err : CErr)
    (hprim : vb.get [size] "weight" = .error err ∨
      (∃ w, vb.get [size] "weight" = .ok w ∧ vb.get [size] "bias" = .error err))
    (hfall : (vb.get [size] "gamma").isOk = false ∨
      (vb.get [size] "beta").isOk = false) :
    layer_norm size eps vb = .error err := by
  rcases hprim with hw | ⟨w, hw, hb⟩
  · rcases hg : vb.get [size] "gamma" with eg | g
    · simp [layer_norm, hw, hg]
    · rcases hbe : vb.get [size] "beta" with eb | bb
      · simp [layer_norm, hw, hg, hbe]
      · simp [hg, hbe, Except.isOk, Except.toBool] at hfall
  · rcases hg : vb.get [size] "gamma" with eg | g
    · simp [layer_norm, hw, hb, hg]
    · rcases hbe : vb.get [size] "beta" with eb | bb
      · simp [layer_norm, hw, hb, hg, hbe]
      · simp [hg, hbe, Except.isOk, Except.toBool] at hfall

/-- C2: `layer_norm` prefers the `weight`/`bias` pair; with equal values the
`gamma`/`beta` fallback yields the identical `LayerNorm`; and when both
conventions fail, the error surfaced is the primary pair's. -/
theorem layer_norm_dual_naming :
    (∀ (vb : VarBuilder) (size : Nat) (eps : ℚ) (w b : RTensor ℚ),
      vb.get [size] "weight" = .ok w → vb.get [size] "bias" = .ok b →
      layer_norm size eps vb = .ok ⟨w, b, eps⟩) ∧
    (∀ (size : Nat) (eps : ℚ) (w b : RTensor ℚ),
      w.shape = [size] → b.shape = [size] →
      layer_norm size eps (primaryStore w b)
        = layer_norm size eps (fallbackStore w b)) ∧
    (∀ (vb : VarBuilder) (size : Nat) (eps : ℚ) (err : CErr),
      (vb.get [size] "weight" = .error err ∨
        (∃ w, vb.get [size] "weight" = .ok w ∧
          vb.get [size] "bias" = .error err)) →
      ((vb.get [size] "gamma").isOk = false ∨
        (vb.get [size] "beta").isOk = false) →
      layer_norm size eps vb = .error err) :=
  ⟨layer_norm_primary, layer_norm_fallback_equiv, layer_norm_original_error⟩

/-- Witness for C2 at concrete stores: both namings produce the same
normalization layer, and an empty store surfaces the missing `weight`
error. -/
theorem layer_norm_dual_naming_witness :
    layer_norm 2 (1/2) (primaryStore ⟨[2], [1, 2]⟩ ⟨[2], [3, 4]⟩)
      = layer_norm 2 (1/2) (fallbackStore ⟨[2], [1, 2]⟩ ⟨[2], [3, 4]⟩) ∧
    layer_norm 2 (1/2) ⟨[], []⟩ = .error (.missingParameter "weight") :=
  ⟨layer_norm_dual_naming.2.1 2 (1/2) ⟨[2], [1, 2]⟩ ⟨[2], [3, 4]⟩ rfl rfl,
   layer_norm_dual_naming.2.2 ⟨[], []⟩ 2 (1/2) (.missingParameter "weight")
     (Or.inl rfl) (Or.inl rfl)⟩

/-- The `Config` record of `bigcode/model.rs` (epsilon as a rational). -/
structure Config where
  vocab_size : Nat
  max_position_embeddings : Nat
  num_hidden_layers : Nat
  hidden_size : Nat
  layer_norm_epsilon : ℚ
  n_inner : Option Nat
  num_attention_heads : Nat
  multi_query : Bool
  deriving DecidableEq

/-- The `Attention` module: packed projection and output projection. -/
structure Attention where
  c_attn : Linear
  c_proj : Linear
  deriving DecidableEq

/-- The `Mlp` module: expansion and contraction projections. -/
structure Mlp where
  c_fc : Linear
  c_proj : Linear
  deriving DecidableEq

/-- A transformer `Block`: two layer norms, attention and MLP. -/
structure Block where
  ln_1 : LayerNorm
  attn : Attention
  ln_2 : LayerNorm
  mlp : Mlp
  deriving DecidableEq

/-- The `GPTBigCode` model record. -/
structure GPTBigCode where
  wte : Embedding
  wpe : Embedding
  blocks : List Block
  ln_f : LayerNorm
  lm_head : Linear
  config : Config
  deriving DecidableEq

/-- The key/value width `kv_heads * head_dim` computed by `Attention::load`,
with Rust integer (floor) division for `head_dim`. -/
def kvDim (cfg : Config) : Nat :=
  (if cfg.multi_query then 1 else cfg.num_attention_heads) *
    (cfg.hidden_size / cfg.num_attention_heads)

/-- `Attention::load` from `bigcode/model.rs`; its local
`head_dim`/`kv_heads`/`kv_dim` computation is the definition `kvDim`. -/
def Attention.load (vb : VarBuilder) (cfg : Config) : Except CErr Attention := do
  let c_attn ← linear cfg.hidden_size (cfg.hidden_size + 2 * kvDim cfg) true
    (vb.pp "c_attn")
  let c_proj ← linear cfg.hidden_size cfg.hidden_size true (vb.pp "c_proj")
  return Attention.mk c_attn c_proj

/-- Product of a shape's dimensions. -/
def prodN (s : List Nat) : Nat := s.foldl (· * ·) 1

/-- Splits a shape into batch dimensions and the last two dimensions. -/
def splitLast2 (s : List Nat) : Option (List Nat × Nat × Nat) :=
  match s.reverse with
  | k :: m :: rest => some (rest.reverse, m, k)
  | _ => none

/-- Modelled from the spec: the external tensor collaborator's transpose of
the last two dimensions (`Tensor::t`, candle-core, not under `src/`); fails
on tensors of rank below 2. -/
def tLast2 (t : RTensor ℚ) : Except CErr (RTensor ℚ) :=
  match splitLast2 t.shape with
  | some (bs, m, k) =>
    .ok ⟨bs ++ [k, m], (List.range (prodN bs * (m * k))).map (fun idx =>
      let b := idx / (m * k)
      let r := (idx % (m * k)) / m
      let c := idx % m
      t.data.getD (b * (m * k) + c * k + r) 0)⟩
  | none => .error (.dimsRank 2 t.shape.length)

/-- Modelled from the spec: `Tensor::broadcast_left` (candle-core, not
under `src/`): prepends a dimension by replicating the data. -/
def broadcast_left (t : RTensor ℚ) (b : Nat) : RTensor ℚ :=
  ⟨b :: t.shape, (List.replicate b t.data).flatten⟩

/-- Modelled from the spec: the external matrix multiply
(`Tensor::matmul`, candle-core, not under `src/`): both operands need rank
at least 2, equal batch dimensions and a matching inner dimension,
otherwise an error is returned. -/
def matmul (a b : RTensor ℚ) : Except CErr (RTensor ℚ) :=
  match splitLast2 a.shape, splitLast2 b.shape with
  | some (ba, m, k), some (bb, k2, n) =>
    if ba = bb ∧ k = k2 then
      .ok ⟨ba ++ [m, n], (List.range (prodN ba * (m * n))).map (fun idx =>
        let bi := idx / (m * n)
        let r := (idx % (m * n)) / n
        let c := idx % n
        ((List.range k).map (fun t2 =>
          a.data.getD (bi * (m * k) + r * k + t2) 0 *
          b.data.getD (bi * (k * n) + t2 * n + c) 0)).sum)⟩
    else .error (.matmulShape a.shape b.shape)
  | _, _ => .error (.matmulShape a.shape b.shape)

/-- Modelled from the spec: `Tensor::broadcast_add` of a rank-1 bias over
the last dimension (candle-core, not under `src/`). -/
def broadcast_add1 (x bias : RTensor ℚ) : Except CErr (RTensor ℚ) :=
  match x.shape.getLast?, bias.shape with
  | some n, [n2] =>
    if n = n2 then
      .ok ⟨x.shape, x.data.mapIdx (fun i v => v + bias.data.getD (i % n) 0)⟩
    else .error (.addShape x.shape bias.shape)
  | _, _ => .error (.addShape x.shape bias.shape)

/-- Modelled from the spec: elementwise tensor addition of equal shapes
(`Tensor::add`, candle-core, not under `src/`). -/
def tadd (a b : RTensor ℚ) : Except CErr (RTensor ℚ) :=
  if a.shape = b.shape then
    .ok ⟨a.shape, List.zipWith (· + ·) a.data b.data⟩
  else .error (.addShape a.shape b.shape)

/-- Modelled from the spec: the elementwise GELU nonlinearity of the tensor
collaborator (candle-core, not under `src/`), abstracted as an arbitrary
scalar function `g`. -/
def geluT (g : ℚ → ℚ) (t : RTensor ℚ) : RTensor ℚ :=
  ⟨t.shape, t.data.map g⟩

/-- Modelled from the spec: `candle_nn::Linear::forward` (not under
`src/`): for a rank-3 input the (out, in) weight is broadcast on the left
and transposed, the input is matrix-multiplied with it, and the optional
bias is broadcast-added. -/
def Linear.forward (l : Linear) (x : RTensor ℚ) : Except CErr (RTensor ℚ) := do
  let w ←
    match x.shape with
    | [bsize, _, _] => tLast2 (broadcast_left l.weight bsize)
    | _ => tLast2 l.weight
  let y ← matmul x w
  match l.bias with
  | none => pure y
  | some bias => broadcast_add1 y bias

/-- Modelled from the spec: `candle_nn::Embedding::forward` (not under
`src/`): selects table rows by index, failing on an index at or beyond the
table's cardinality, and reshapes to the index shape extended by the hidden
size. -/
def Embedding.forward (e : Embedding) (ids : RTensor Nat) :
    Except CErr (RTensor ℚ) :=
  match e.embeddings.shape with
  | [v, h] =>
    if h = e.hidden_size then do
      let rows ← ids.data.mapM (fun i =>
        if i < v then .ok ((e.embeddings.data.drop (i * h)).take h)
        else (.error (.invalidIndex i v) : Except CErr (List ℚ)))
      .ok ⟨ids.shape ++ [e.hidden_size], rows.flatten⟩
    else .error (.shapeMismatch "embedding" [v, e.hidden_size] [v, h])
  | s => .error (.dimsRank 2 s.length)

/-- Modelled from the spec: `candle_nn::LayerNorm::forward` (not under
`src/`): over the last dimension, subtract the mean, divide by the square
root of variance plus epsilon — the inverse square root supplied by the
numeric collaborator is abstracted as `rsqrt` — then scale and shift. -/
def LayerNorm.forward (rsqrt : ℚ → ℚ) (ln : LayerNorm) (x : RTensor ℚ) :
    Except CErr (RTensor ℚ) :=
  match x.shape.getLast? with
  | none => .error (.dimsRank 1 0)
  | some h =>
    .ok ⟨x.shape, (List.range x.data.length).map (fun i =>
      let r := i / h
      let j := i % h
      let row := (x.data.drop (r * h)).take h
      let mean := row.sum / (h : ℚ)
      let vr := ((row.map (fun v => (v - mean) * (v - mean))).sum) / (h : ℚ)
      ln.weight.data.getD j 0 *
        ((x.data.getD i 0 - mean) * rsqrt (vr + ln.eps)) +
        ln.bias.data.getD j 0)⟩

/-- Modelled from the spec: `Tensor::narrow` (candle-core, not under
`src/`): restricts one dimension to `[start, start+len)`, erroring when the
range exceeds that dimension. -/
def narrow (t : RTensor ℚ) (dim start len : Nat) : Except CErr (RTensor ℚ) :=
  if dim < t.shape.length then
    if start + len ≤ t.shape.getD dim 0 then
      .ok ⟨t.shape.set dim len,
        (List.range (prodN (t.shape.take dim) *
            (len * prodN (t.shape.drop (dim + 1))))).map (fun idx =>
          let inner := prodN (t.shape.drop (dim + 1))
          let o := idx / (len * inner)
          let l := (idx % (len * inner)) / inner
          let i := idx % inner
          t.data.getD
            (o * (t.shape.getD dim 0 * inner) + (start + l) * inner + i) 0)⟩
    else .error (.narrowOutOfBounds dim start len (t.shape.getD dim 0))
  else .error (.dimsRank dim t.shape.length)

/-- Modelled from the spec: `Tensor::squeeze` (candle-core, not under
`src/`): removes the dimension when its size is 1 and otherwise returns
the tensor unchanged; the dimension index must be in range. -/
def squeezeAt (t : RTensor ℚ) (dim : Nat) : Except CErr (RTensor ℚ) :=
  if dim < t.shape.length then
    if t.shape.getD dim 0 = 1 then .ok ⟨t.shape.eraseIdx dim, t.data⟩
    else .ok t
  else .error (.dimsRank dim t.shape.length)

/-- Modelled from the spec: the indexing `t.i((.., a, b))` of candle-core's
`IndexOp` (not under `src/`): a full range on dimension 0 followed by two
scalar selections, each a narrow-to-one then squeeze. -/
def indexLastTwo (t : RTensor ℚ) (a b : Nat) : Except CErr (RTensor ℚ) := do
  let t1 ← narrow t 1 a 1
  let t2 ← squeezeAt t1 1
  let t3 ← narrow t2 1 b 1
  squeezeAt t3 1

/-- Modelled from the spec: Rust `usize` subtraction; an underflow is a
panic under debug assertions, not an ordinary error value. -/
def usizeSub (a b : Nat) : Except CErr Nat :=
  if b ≤ a then .ok (a - b) else .error .subOverflow

/-- Modelled from the spec: `Tensor::dims2` (candle-core, not under
`src/`): the two dimensions of a rank-2 tensor. -/
def dims2 {α : Type} (t : RTensor α) : Except CErr (Nat × Nat) :=
  match t.shape with
  | [a, b] => .ok (a, b)
  | s => .error (.dimsRank 2 s.length)

/-- `Mlp::load` from `bigcode/model.rs`. -/
def Mlp.load (inner_dim : Nat) (vb : VarBuilder) (cfg : Config) :
    Except CErr Mlp := do
  let c_fc ← linear cfg.hidden_size inner_dim true (vb.pp "c_fc")
  let c_proj ← linear inner_dim cfg.hidden_size true (vb.pp "c_proj")
  return Mlp.mk c_fc c_proj

/-- `Block::load` from `bigcode/model.rs`. -/
def Block.load (vb : VarBuilder) (cfg : Config) : Except CErr Block := do
  let ln_1 ← layer_norm cfg.hidden_size cfg.layer_norm_epsilon (vb.pp "ln_1")
  let attn ← Attention.load (vb.pp "attn") cfg
  let ln_2 ← layer_norm cfg.hidden_size cfg.layer_norm_epsilon (vb.pp "ln_2")
  let mlp ← Mlp.load (cfg.n_inner.getD (4 * cfg.hidden_size)) (vb.pp "mlp") cfg
  return Block.mk ln_1 attn ln_2 mlp

/-- `GPTBigCode::load` from `bigcode/model.rs`. -/
def GPTBigCode.load (vb : VarBuilder) (cfg : Config) :
    Except CErr GPTBigCode := do
  let hidden_size := cfg.hidden_size
  let wte ← embedding cfg.vocab_size hidden_size (vb.pp "wte")
  let wpe ← embedding cfg.max_position_embeddings hidden_size (vb.pp "wpe")
  let blocks ← (List.range cfg.num_hidden_layers).mapM
    (fun i => Block.load (vb.pp ("h." ++ toString i)) cfg)
  let ln_f ← layer_norm hidden_size cfg.layer_norm_epsilon (vb.pp "ln_f")
  let lm_head ← linear hidden_size cfg.vocab_size false (vb.pp "lm_head")
  return GPTBigCode.mk wte wpe blocks ln_f lm_head cfg

/-- `Mlp::forward` from `bigcode/model.rs`: expansion projection, GELU
(abstracted as `g`), contraction projection. -/
def Mlp.forward (g : ℚ → ℚ) (m : Mlp) (x : RTensor ℚ) :
    Except CErr (RTensor ℚ) := do
  let x1 ← m.c_fc.forward x
  let x2 := geluT g x1
  m.c_proj.forward x2

/-- `Block::forward` from `bigcode/model.rs`, line for line; the attention
sub-layer is `todo!()` in the source and is taken as a parameter `attnF`. -/
def Block.forward (rsqrt g : ℚ → ℚ)
    (attnF : Attention → RTensor ℚ → Except CErr (RTensor ℚ))
    (blk : Block) (x : RTensor ℚ) : Except CErr (RTensor ℚ) := do
  let residual := x
  let x1 ← blk.ln_1.forward rsqrt x
  let attn_outputs ← attnF blk.attn x1
  let x2 ← tadd attn_outputs residual
  let residual2 := x2
  let x3 ← blk.ln_2.forward rsqrt x2
  let x4 ← blk.mlp.forward g x3
  tadd x4 residual2

/-- `GPTBigCode::forward` from `bigcode/model.rs`: embeddings are summed,
blocks are folded in layer order, the final layer norm is applied, then the
source runs `hidden_states.i((.., seq_len - 1, seq_len))` — two scalar
selections — followed by the language-model head and `squeeze(1)`. -/
def GPTBigCode.forward (rsqrt g : ℚ → ℚ)
    (attnF : Attention → RTensor ℚ → Except CErr (RTensor ℚ))
    (m : GPTBigCode) (input_ids position_ids : RTensor Nat) :
    Except CErr (RTensor ℚ) := do
  let bsz_seq ← dims2 input_ids
  let input_embeds ← m.wte.forward input_ids
  let position_embeds ← m.wpe.forward position_ids
  let h0 ← tadd input_embeds position_embeds
  let h1 ← m.blocks.foldlM
    (fun hs blk => Block.forward rsqrt g attnF blk hs) h0
  let h2 ← m.ln_f.forward rsqrt h1
  let lastIdx ← usizeSub bsz_seq.2 1
  let h3 ← indexLastTwo h2 lastIdx bsz_seq.2
  let logits ← m.lm_head.forward h3
  squeezeAt logits 1

theorem get_ok_shape (vb : VarBuilder) (shape : List Nat) (name : String)
    (t : RTensor ℚ) (h : vb.get shape name = .ok t) : t.shape = shape := by
  unfold VarBuilder.get at h
  rcases hl : vb.store.lookup (vb.fullName name) with _ | u
  · rw [hl] at h; exact absurd h (by simp)
  · rw [hl] at h
    by_cases hs : u.shape = shape
    · simp [hs] at h; rw [← h]; exact hs
    · simp [hs] at h

theorem linear_ok_shape (size1 size2 : Nat) (hasBias : Bool)
    (vb : VarBuilder) (l : Linear)
    (h : linear size1 size2 hasBias vb = .ok l) :
    l.weight.shape = [size2, size1] := by
  unfold linear at h
  rcases hw : vb.get [size2, size1] "weight" with e | w <;> rw [hw] at h
  · simp [Bind.bind, Except.bind] at h
  · cases hasBias
    · simp [Bind.bind, Except.bind, Pure.pure, Except.pure] at h
      rcases h with ⟨rfl, rfl⟩
      exact get_ok_shape _ _ _ _ hw
    · rcases hb : vb.get [size2] "bias" with e | b <;> rw [hb] at h
      · simp [Bind.bind, Except.bind] at h
      · simp [Bind.bind, Except.bind, Pure.pure, Except.pure] at h
        rcases h with ⟨rfl, rfl⟩
        exact get_ok_shape _ _ _ _ hw

/-- An all-zero tensor of the given shape. -/
def zerosT (shape : List Nat) : RTensor ℚ :=
  ⟨shape, List.replicate (shape.foldl (· * ·) 1) 0⟩

/-- A config whose hidden size 10 is not divisible by its 3 heads. -/
def cfgC3 : Config := ⟨2, 2, 0, 10, 1, none, 3, false⟩

/-- A store matching the shapes `Attention::load` requests for `cfgC3`:
`head_dim = 10 / 3 = 3` by floor division, so `kv_dim = 9` and the packed
projection is 10 + 2*9 = 28 wide. -/
def vbC3 : VarBuilder :=
  ⟨[("c_attn.weight", zerosT [28, 10]), ("c_attn.bias", zerosT [28]),
    ("c_proj.weight", zerosT [10, 10]), ("c_proj.bias", zerosT [10])], []⟩

/-- C3 counterexample: with `hidden_size = 10`, `num_attention_heads = 3`
and `multi_query = false`, `Attention::load` builds a packed projection of
output dimension 28 = 10 + 2*(3*(10/3)), not 30 = hidden + 2*hidden as the
claim states. -/
theorem attention_load_nondivisible :
    (Attention.load vbC3 cfgC3).map (fun a => a.c_attn.weight.shape)
      = .ok [28, 10] ∧
    cfgC3.multi_query = false ∧
    cfgC3.hidden_size + 2 * cfgC3.hidden_size = 30 ∧ (28 : Nat) ≠ 30 := by
  decide

/-- C3 (amended): `Attention::load` builds a packed projection of output
dimension `hidden_size + 2 * kv_dim` with
`kv_dim = kv_heads * (hidden_size / num_attention_heads)` under floor
division, which matches the claimed `head_dim` resp. `hidden_size` exactly
when `hidden_size` is divisible by `num_attention_heads`; `c_proj` always
maps `hidden_size` to `hidden_size`. -/
theorem attention_load_shapes (cfg : Config) (vb : VarBuilder)
    (attn : Attention) (h : Attention.load vb cfg = .ok attn) :
    attn.c_attn.weight.shape
      = [cfg.hidden_size + 2 * kvDim cfg, cfg.hidden_size] ∧
    attn.c_proj.weight.shape = [cfg.hidden_size, cfg.hidden_size] ∧
    (cfg.hidden_size % cfg.num_attention_heads = 0 →
      kvDim cfg = if cfg.multi_query then
        cfg.hidden_size / cfg.num_attention_heads else cfg.hidden_size) := by
  unfold Attention.load at h
  rcases ha : linear cfg.hidden_size (cfg.hidden_size + 2 * kvDim cfg)
      true (vb.pp "c_attn") with e | ca <;> rw [ha] at h
  · simp [Bind.bind, Except.bind] at h
  · rcases hp : linear cfg.hidden_size cfg.hidden_size true (vb.pp "c_proj")
        with e | cp <;> rw [hp] at h
    · simp [Bind.bind, Except.bind] at h
    · simp [Bind.bind, Except.bind, Pure.pure, Except.pure] at h
      rcases h with ⟨rfl, rfl⟩
      refine ⟨?_, linear_ok_shape _ _ _ _ _ hp, ?_⟩
      · exact linear_ok_shape _ _ _ _ _ ha
      · intro hdvd
        unfold kvDim
        rcases hmq : cfg.multi_query
        · simp [Nat.mul_div_cancel' (Nat.dvd_of_mod_eq_zero hdvd)]
        · simp

/-- A valid multi-query config: hidden 4, 2 heads, `head_dim = 2`. -/
def cfgW : Config := ⟨2, 2, 0, 4, 1, none, 2, true⟩

/-- A store matching the shapes `Attention::load` requests for `cfgW`
(`kv_dim = 2`, packed projection 4 + 2*2 = 8 wide). -/
def vbW : VarBuilder :=
  ⟨[("c_attn.weight", zerosT [8, 4]), ("c_attn.bias", zerosT [8]),
    ("c_proj.weight", zerosT [4, 4]), ("c_proj.bias", zerosT [4])], []⟩

/-- The attention module `Attention::load` produces from `vbW`/`cfgW`. -/
def attnW : Attention :=
  ⟨⟨zerosT [8, 4], some (zerosT [8])⟩, ⟨zerosT [4, 4], some (zerosT [4])⟩⟩

/-- Witness for the amended C3 at the concrete `cfgW`/`vbW`. -/
theorem attention_load_shapes_witness :
    attnW.c_attn.weight.shape
      = [cfgW.hidden_size + 2 * kvDim cfgW, cfgW.hidden_size] ∧
    attnW.c_proj.weight.shape = [cfgW.hidden_size, cfgW.hidden_size] := by
  have h := attention_load_shapes cfgW vbW attnW (by decide)
  exact ⟨h.1, h.2.1⟩

/-- A one-layer config with hidden 10 and 3 heads (not divisible). -/
def cfgC5 : Config := ⟨2, 2, 1, 10, 1, none, 3, false⟩

/-- A store with all parameters `GPTBigCode::load` requests for `cfgC5`
under floor-division shapes. -/
def vbC5 : VarBuilder :=
  ⟨[("wte.weight", zerosT [2, 10]), ("wpe.weight", zerosT [2, 10]),
    ("h.0.ln_1.weight", zerosT [10]), ("h.0.ln_1.bias", zerosT [10]),
    ("h.0.attn.c_attn.weight", zerosT [28, 10]),
    ("h.0.attn.c_attn.bias", zerosT [28]),
    ("h.0.attn.c_proj.weight", zerosT [10, 10]),
    ("h.0.attn.c_proj.bias", zerosT [10]),
    ("h.0.ln_2.weight", zerosT [10]), ("h.0.ln_2.bias", zerosT [10]),
    ("h.0.mlp.c_fc.weight", zerosT [40, 10]),
    ("h.0.mlp.c_fc.bias", zerosT [40]),
    ("h.0.mlp.c_proj.weight", zerosT [10, 40]),
    ("h.0.mlp.c_proj.bias", zerosT [10]),
    ("ln_f.weight", zerosT [10]), ("ln_f.bias", zerosT [10]),
    ("lm_head.weight", zerosT [2, 10])], []⟩

/-- C5 counterexample: `GPTBigCode::load` succeeds on a config whose hidden
size 10 is not divisible by its 3 attention heads; no `InvalidConfig`
validation exists anywhere in the loader. -/
theorem gptbigcode_load_nondivisible_ok :
    (GPTBigCode.load vbC5 cfgC5).isOk = true ∧
    cfgC5.hidden_size % cfgC5.num_attention_heads ≠ 0 := by
  decide

/-- C5 (amended): model construction performs no divisibility check: on the
non-divisible `cfgC5` it loads a model whose single block has the
floor-division packed projection of shape (28, 10). -/
theorem gptbigcode_load_no_divisibility_check :
    (GPTBigCode.load vbC5 cfgC5).map
        (fun m => m.blocks.map (fun b => b.attn.c_attn.weight.shape))
      = .ok [[28, 10]] ∧
    cfgC5.hidden_size % cfgC5.num_attention_heads = 1 := by
  decide

/-- Spec-side definition of §4.4, its numbered steps written out verbatim:
save the residual, normalize, run attention, add back, save the residual
again, normalize, run the feed-forward, add back. -/
def blockForwardSpec (rsqrt g : ℚ → ℚ)
    (attnF : Attention → RTensor ℚ → Except CErr (RTensor ℚ))
    (blk : Block) (x0 : RTensor ℚ) : Except CErr (RTensor ℚ) := do
  let residual := x0
  let x ← blk.ln_1.forward rsqrt x0
  let x ← attnF blk.attn x
  let x ← tadd x residual
  let residual := x
  let x ← blk.ln_2.forward rsqrt x
  let x ← blk.mlp.forward g x
  tadd x residual

/-- C6: `Block::forward` computes exactly the pre-norm residual sequence of
§4.4 — each sub-layer's output is added to the value saved before that
sub-layer's normalization, not to the normalized value. -/
theorem block_forward_pre_norm_residual (rsqrt g : ℚ → ℚ)
    (attnF : Attention → RTensor ℚ → Except CErr (RTensor ℚ))
    (blk : Block) (x : RTensor ℚ) :
    Block.forward rsqrt g attnF blk x = blockForwardSpec rsqrt g attnF blk x :=
  rfl

/-- Spec-side definition of §4.3: expand through the first projection, apply
the nonlinearity elementwise, contract through the second projection. -/
def feedForwardSpec (g : ℚ → ℚ) (m : Mlp) (x : RTensor ℚ) :
    Except CErr (RTensor ℚ) :=
  (m.c_fc.forward x).bind (fun expanded => m.c_proj.forward (geluT g expanded))

theorem mlp_load_shapes (inner_dim : Nat) (vb : VarBuilder) (cfg : Config)
    (m : Mlp) (h : Mlp.load inner_dim vb cfg = .ok m) :
    m.c_fc.weight.shape = [inner_dim, cfg.hidden_size] ∧
    m.c_proj.weight.shape = [cfg.hidden_size, inner_dim] := by
  unfold Mlp.load at h
  rcases hf : linear cfg.hidden_size inner_dim true (vb.pp "c_fc")
      with e | cf <;> rw [hf] at h
  · simp [Bind.bind, Except.bind] at h
  · rcases hp : linear inner_dim cfg.hidden_size true (vb.pp "c_proj")
        with e | cp <;> rw [hp] at h
    · simp [Bind.bind, Except.bind] at h
    · simp [Bind.bind, Except.bind, Pure.pure, Except.pure] at h
      rcases h with ⟨rfl, rfl⟩
      exact ⟨linear_ok_shape _ _ _ _ _ hf, linear_ok_shape _ _ _ _ _ hp⟩

theorem block_load_mlp_shapes (vb : VarBuilder) (cfg : Config) (blk : Block)
    (h : Block.load vb cfg = .ok blk) :
    blk.mlp.c_fc.weight.shape
      = [cfg.n_inner.getD (4 * cfg.hidden_size), cfg.hidden_size] ∧
    blk.mlp.c_proj.weight.shape
      = [cfg.hidden_size, cfg.n_inner.getD (4 * cfg.hidden_size)] := by
  unfold Block.load at h
  rcases h1 : layer_norm cfg.hidden_size cfg.layer_norm_epsilon (vb.pp "ln_1")
      with e | l1 <;> rw [h1] at h
  · simp [Bind.bind, Except.bind] at h
  · rcases h2 : Attention.load (vb.pp "attn") cfg with e | a2 <;> rw [h2] at h
    · simp [Bind.bind, Except.bind] at h
    · rcases h3 : layer_norm cfg.hidden_size cfg.layer_norm_epsilon
          (vb.pp "ln_2") with e | l2 <;> rw [h3] at h
      · simp [Bind.bind, Except.bind] at h
      · rcases h4 : Mlp.load (cfg.n_inner.getD (4 * cfg.hidden_size))
            (vb.pp "mlp") cfg with e | ml <;> rw [h4] at h
        · simp [Bind.bind, Except.bind] at h
        · simp [Bind.bind, Except.bind, Pure.pure, Except.pure] at h
          rcases h with ⟨rfl, rfl, rfl, rfl⟩
          exact mlp_load_shapes _ _ _ _ h4

/-- C8: `Mlp::forward` is exactly the expansion projection, then GELU
elementwise, then the contraction projection, in that order; and
`Block::load` builds the MLP with inner dimension `n_inner` when given and
`4 * hidden_size` when absent. -/
theorem mlp_gelu_composition :
    (∀ (g : ℚ → ℚ) (m : Mlp) (x : RTensor ℚ),
      Mlp.forward g m x = feedForwardSpec g m x) ∧
    (∀ (vb : VarBuilder) (cfg : Config) (blk : Block),
      Block.load vb cfg = .ok blk →
      blk.mlp.c_fc.weight.shape
        = [cfg.n_inner.getD (4 * cfg.hidden_size), cfg.hidden_size] ∧
      blk.mlp.c_proj.weight.shape
        = [cfg.hidden_size, cfg.n_inner.getD (4 * cfg.hidden_size)]) :=
  ⟨fun _ _ _ => rfl, block_load_mlp_shapes⟩

/-- A small config (hidden 2, one head) with `n_inner` absent, so the inner
feed-forward dimension defaults to 8 = 4 * 2. -/
def cfgB : Config := ⟨2, 2, 1, 2, 1, none, 1, false⟩

/-- A store with every parameter `Block::load` requests for `cfgB`. -/
def vbB : VarBuilder :=
  ⟨[("ln_1.weight", zerosT [2]), ("ln_1.bias", zerosT [2]),
    ("attn.c_attn.weight", zerosT [6, 2]), ("attn.c_attn.bias", zerosT [6]),
    ("attn.c_proj.weight", zerosT [2, 2]), ("attn.c_proj.bias", zerosT [2]),
    ("ln_2.weight", zerosT [2]), ("ln_2.bias", zerosT [2]),
    ("mlp.c_fc.weight", zerosT [8, 2]), ("mlp.c_fc.bias", zerosT [8]),
    ("mlp.c_proj.weight", zerosT [2, 8]), ("mlp.c_proj.bias", zerosT [2])],
    []⟩

/-- The block `Block::load` produces from `vbB`/`cfgB`. -/
def blkB : Block :=
  ⟨⟨zerosT [2], zerosT [2], 1⟩,
   ⟨⟨zerosT [6, 2], some (zerosT [6])⟩, ⟨zerosT [2, 2], some (zerosT [2])⟩⟩,
   ⟨zerosT [2], zerosT [2], 1⟩,
   ⟨⟨zerosT [8, 2], some (zerosT [8])⟩, ⟨zerosT [2, 8], some (zerosT [2])⟩⟩⟩

/-- Witness for C8 at the concrete `cfgB`/`vbB`: the loaded MLP expands
hidden 2 to the default inner dimension 8 and contracts back. -/
theorem mlp_gelu_composition_witness :
    blkB.mlp.c_fc.weight.shape
      = [cfgB.n_inner.getD (4 * cfgB.hidden_size), cfgB.hidden_size] ∧
    blkB.mlp.c_proj.weight.shape
      = [cfgB.hidden_size, cfgB.n_inner.getD (4 * cfgB.hidden_size)] :=
  mlp_gelu_composition.2 vbB cfgB blkB (by decide)

/-- A config with vocabulary 2, hidden size 4, two heads and zero layers
(the block stack does not affect the final indexing). -/
def cfgM : Config := ⟨2, 2, 0, 4, 1, none, 2, false⟩

/-- A concrete loaded model for `cfgM`: identity-like head, unit layer-norm
scale, zero shift. -/
def mdl : GPTBigCode :=
  ⟨⟨⟨[2, 4], [1, 2, 3, 4, 5, 6, 7, 8]⟩, 4⟩,
   ⟨zerosT [2, 4], 4⟩,
   [],
   ⟨⟨[4], [1, 1, 1, 1]⟩, zerosT [4], 1⟩,
   ⟨⟨[2, 4], [1, 0, 0, 0, 0, 1, 0, 0]⟩, none⟩,
   cfgM⟩

/-- Token ids of shape (1, 1). -/
def ids1 : RTensor Nat := ⟨[1, 1], [0]⟩

/-- Position ids of shape (1, 1). -/
def pos1 : RTensor Nat := ⟨[1, 1], [0]⟩

/-- C1 (code-bug evidence): on a batch-1, sequence-1 input the source's
`i((.., seq_len - 1, seq_len))` performs two scalar selections — position
`seq_len - 1` and then *hidden coordinate* `seq_len` — leaving a rank-1
tensor of shape (batch), so the language-model head's matrix multiply
fails; the claimed (batch, vocab_size) logits are never produced.  The
second conjunct isolates the extraction itself: from a (1, 1, 4) hidden
state it keeps the single scalar at hidden coordinate 1 instead of the
whole last-position row.  The `squeeze(1)` that follows in the source only
makes sense for the range indexing `seq_len - 1..seq_len`, showing the
range was intended. -/
theorem forward_last_position_bug :
    (∀ (rsqrt g : ℚ → ℚ)
       (attnF : Attention → RTensor ℚ → Except CErr (RTensor ℚ)),
      GPTBigCode.forward rsqrt g attnF mdl ids1 pos1
        = .error (.matmulShape [1] [4, 2])) ∧
    indexLastTwo ⟨[1, 1, 4], [10, 11, 12, 13]⟩ 0 1 = .ok ⟨[1], [11]⟩ :=
  ⟨fun _ _ _ => rfl, by decide⟩

/-- Empty-sequence token ids of shape (1, 0). -/
def ids0 : RTensor Nat := ⟨[1, 0], []⟩

/-- Empty-sequence position ids of shape (1, 0). -/
def pos0 : RTensor Nat := ⟨[1, 0], []⟩

/-- Token ids of shape (1, 1) holding the out-of-vocabulary id 5. -/
def idsBad : RTensor Nat := ⟨[1, 1], [5]⟩

/-- C7 counterexample: on a sequence of length 0 the forward pass reaches
the `usize` underflow in `seq_len - 1`, which is a panic under debug
assertions — not an `InvalidInput` error value as the claim states. -/
theorem forward_empty_seq_underflow :
    GPTBigCode.forward id id (fun _ t => .ok t) mdl ids0 pos0
      = .error .subOverflow :=
  rfl

/-- C7 (amended): `Model::forward` performs no input validation and no
`InvalidInput` error exists: a sequence of length 0 hits the `seq_len - 1`
underflow (a panic under debug assertions), while an out-of-vocabulary
token id surfaces as the embedding lookup's index-out-of-bounds error. -/
theorem forward_no_input_validation :
    (∀ (rsqrt g : ℚ → ℚ)
       (attnF : Attention → RTensor ℚ → Except CErr (RTensor ℚ)),
      GPTBigCode.forward rsqrt g attnF mdl ids0 pos0
        = .error .subOverflow) ∧
    (∀ (rsqrt g : ℚ → ℚ)
       (attnF : Attention → RTensor ℚ → Except CErr (RTensor ℚ)),
      GPTBigCode.forward rsqrt g attnF mdl idsBad pos1
        = .error (.invalidIndex 5 2)) :=
  ⟨fun _ _ _ => rfl, fun _ _ _ => rfl⟩

end Candle

namespace SpecAttn

/-- Dot product of two rational vectors. -/
def dotL (a b : List ℚ) : ℚ := (List.zipWith (· * ·) a b).sum

/-- An affine map given as weight rows of shape (out, in) and a bias. -/
def affine (w : List (List ℚ)) (b : List ℚ) (x : List ℚ) : List ℚ :=
  List.zipWith (fun row bi => dotL row x + bi) w b

/-- Modelled from the spec: the weights and head geometry of §4.2's
attention; `Attention::forward` is `todo!()` in the source. -/
structure AttnParams where
  cAttnW : List (List ℚ)
  cAttnB : List ℚ
  cProjW : List (List ℚ)
  cProjB : List ℚ
  numHeads : Nat
  headDim : Nat
  kvHeads : Nat
  hidden : Nat

/-- The packed projection `c_attn` applied to the vector at position `j`. -/
def packed (p : AttnParams) (xs : List (List ℚ)) (j : Nat) : List ℚ :=
  affine p.cAttnW p.cAttnB (xs.getD j [])

/-- The key/value head serving query head `h`: head 0 when a single
key/value head is shared (multi-query), `h` otherwise. -/
def kvIdx (p : AttnParams) (h : Nat) : Nat := if p.kvHeads = 1 then 0 else h

/-- Query head `h` at position `i`: the query segment of the packed
projection, sliced per head. -/
def qSlice (p : AttnParams) (xs : List (List ℚ)) (i h : Nat) : List ℚ :=
  (((packed p xs i).take p.hidden).drop (h * p.headDim)).take p.headDim

/-- Key head serving `h` at position `j`. -/
def kSlice (p : AttnParams) (xs : List (List ℚ)) (j h : Nat) : List ℚ :=
  ((((packed p xs j).drop p.hidden).take (p.kvHeads * p.headDim)).drop
    (kvIdx p h * p.headDim)).take p.headDim

/-- Value head serving `h` at position `j`. -/
def vSlice (p : AttnParams) (xs : List (List ℚ)) (j h : Nat) : List ℚ :=
  (((packed p xs j).drop (p.hidden + p.kvHeads * p.headDim)).drop
    (kvIdx p h * p.headDim)).take p.headDim

/-- Modelled from the spec: the scaled attention score of position `i`
against position `j` in head `h`; the factor 1/√head_dim is abstracted as
the parameter `scale`. -/
def score (p : AttnParams) (scale : ℚ) (xs : List (List ℚ))
    (i j h : Nat) : ℚ :=
  scale * dotL (qSlice p xs i h) (kSlice p xs j h)

/-- Modelled from the spec: the unnormalized softmax weight of one score;
masked entries are set to −∞ before normalization, so positions after `i`
carry weight zero — equivalently, row `i` ranges only over `j ≤ i` — and
the exponential is abstracted as the parameter `e`. -/
def wgt (e : ℚ → ℚ) (p : AttnParams) (scale : ℚ) (xs : List (List ℚ))
    (i j h : Nat) : ℚ :=
  e (score p scale xs i j h)

/-- The softmax normalizer of row `i`: the weights of the unmasked
positions `j ≤ i`. -/
def denom (e : ℚ → ℚ) (p : AttnParams) (scale : ℚ) (xs : List (List ℚ))
    (i h : Nat) : ℚ :=
  ((List.range (i + 1)).map (fun j => wgt e p scale xs i j h)).sum

/-- Head `h`'s output at position `i`: the probability-weighted sum of the
value vectors of the unmasked positions `j ≤ i`. -/
def headOut (e : ℚ → ℚ) (p : AttnParams) (scale : ℚ) (xs : List (List ℚ))
    (i h : Nat) : List ℚ :=
  (List.range p.headDim).map (fun d =>
    ((List.range (i + 1)).map (fun j =>
      (wgt e p scale xs i j h / denom e p scale xs i h) *
        (vSlice p xs j h).getD d 0)).sum)

/-- All heads' outputs at position `i`, merged back to a hidden vector. -/
def mergeHeads (e : ℚ → ℚ) (p : AttnParams) (scale : ℚ)
    (xs : List (List ℚ)) (i : Nat) : List ℚ :=
  ((List.range p.numHeads).map (fun h => headOut e p scale xs i h)).flatten

/-- Modelled from the spec: §4.2's causal, optionally multi-query attention
forward pass over a sequence of hidden vectors, ending in the output
projection `c_proj`. -/
def attnForward (e : ℚ → ℚ) (scale : ℚ) (p : AttnParams)
    (xs : List (List ℚ)) : List (List ℚ) :=
  (List.range xs.length).map (fun i =>
    affine p.cProjW p.cProjB (mergeHeads e p scale xs i))

theorem mergeHeads_congr (e : ℚ → ℚ) (p : AttnParams) (scale : ℚ)
    (xs ys : List (List ℚ)) (i : Nat)
    (hagree : ∀ j, j ≤ i → xs.getD j [] = ys.getD j []) :
    mergeHeads e p scale xs i = mergeHeads e p scale ys i := by
  have hpack : ∀ j, j ≤ i → packed p xs j = packed p ys j := by
    intro j hj
    unfold packed
    rw [hagree j hj]
  have hq : ∀ h, qSlice p xs i h = qSlice p ys i h := by
    intro h
    unfold qSlice
    rw [hpack i le_rfl]
  have hk : ∀ j h, j ≤ i → kSlice p xs j h = kSlice p ys j h := by
    intro j h hj
    unfold kSlice
    rw [hpack j hj]
  have hv : ∀ j h, j ≤ i → vSlice p xs j h = vSlice p ys j h := by
    intro j h hj
    unfold vSlice
    rw [hpack j hj]
  have hw : ∀ j h, j ≤ i →
      wgt e p scale xs i j h = wgt e p scale ys i j h := by
    intro j h hj
    unfold wgt score
    rw [hq h, hk j h hj]
  have hd : ∀ h, denom e p scale xs i h = denom e p scale ys i h := by
    intro h
    unfold denom
    refine congrArg List.sum (List.map_congr_left ?_)
    intro j hj
    exact hw j h (Nat.lt_succ_iff.mp (List.mem_range.mp hj))
  have hho : ∀ h, headOut e p scale xs i h = headOut e p scale ys i h := by
    intro h
    unfold headOut
    refine List.map_congr_left ?_
    intro d _
    refine congrArg List.sum (List.map_congr_left ?_)
    intro j hj
    have hj' : j ≤ i := Nat.lt_succ_iff.mp (List.mem_range.mp hj)
    rw [hw j h hj', hd h, hv j h hj']
  unfold mergeHeads
  refine congrArg List.flatten (List.map_congr_left ?_)
  intro h _
  exact hho h

/-- C4: strict causality of the spec-modelled attention: changing the
input vectors at positions strictly after `i` leaves the attention output
at position `i` unchanged, for every exponential surrogate `e`, score
scale, weights and head geometry. -/
theorem attention_causal (e : ℚ → ℚ) (scale : ℚ) (p : AttnParams)
    (xs ys : List (List ℚ)) (i : Nat)
    (hlen : ys.length = xs.length) (hi : i < xs.length)
    (hagree : ∀ j, j ≤ i → xs.getD j [] = ys.getD j []) :
    (attnForward e scale p xs).getD i []
      = (attnForward e scale p ys).getD i [] := by
  have hi' : i < ys.length := hlen ▸ hi
  have hx : (attnForward e scale p xs).getD i []
      = affine p.cProjW p.cProjB (mergeHeads e p scale xs i) := by
    unfold attnForward
    rw [List.getD_eq_getElem?_getD, List.getElem?_map, List.getElem?_range hi]
    rfl
  have hy : (attnForward e scale p ys).getD i []
      = affine p.cProjW p.cProjB (mergeHeads e p scale ys i) := by
    unfold attnForward
    rw [List.getD_eq_getElem?_getD, List.getElem?_map, List.getElem?_range hi']
    rfl
  rw [hx, hy, mergeHeads_congr e p scale xs ys i hagree]

/-- A minimal single-head geometry: hidden 1, head width 1; `c_attn` maps
the scalar input to (q, k, v) = (x, x, x) and `c_proj` is the identity. -/
def pW : AttnParams := ⟨[[1], [1], [1]], [0, 0, 0], [[1]], [0], 1, 1, 1, 1⟩

/-- Witness for C4: two sequences agreeing at position 0 but differing at
position 1 produce the same attention output at position 0. -/
theorem attention_causal_witness :
    (attnForward (fun q => 1 + q * q) 1 pW [[1], [2]]).getD 0 []
      = (attnForward (fun q => 1 + q * q) 1 pW [[1], [7]]).getD 0 [] :=
  attention_causal (fun q => 1 + q * q) 1 pW [[1], [2]] [[1], [7]] 0 rfl
    (by decide)
    (fun j hj => by
      have hj0 : j = 0 := Nat.le_zero.mp hj
      subst hj0
      rfl)

end SpecAttn

namespace Optim

/-- A `candle::Var`: an identifier and its current tensor value, as flat
data. -/
structure Var where
  id : Nat
  value : List ℚ
  deriving DecidableEq

/-- The `SGD` record of `candle-nn/src/optim.rs`: registered variables and
a learning rate. -/
structure SGD where
  vars : List Var
  learning_rate : ℚ
  deriving DecidableEq

/-- Modelled from the spec: `Var::sub` followed by `Var::set` of the
external tensor collaborator (candle-core, not under `src/`): elementwise
subtraction requiring equal shapes. -/
def subSet (v g : List ℚ) : Except Candle.CErr (List ℚ) :=
  if v.length = g.length then .ok (List.zipWith (fun a b => a - b) v g)
  else .error (.subShape v.length g.length)

/-- One iteration of the loop in `SGD::backward_step`: a variable with a
gradient is set to `var - grad * learning_rate`, one without is left
unchanged. -/
def stepVar (lr : ℚ) (grads : Nat → Option (List ℚ)) (v : Var) :
    Except Candle.CErr Var := do
  match grads v.id with
  | none => return v
  | some grad =>
    let nv ← subSet v.value (List.map (fun x => x * lr) grad)
    return Var.mk v.id nv

/-- `SGD::backward_step` from `candle-nn/src/optim.rs`, with the gradient
map produced by `loss.backward()` (the external autodifferentiation
engine) taken as a parameter keyed by variable identity. -/
def backward_step (s : SGD) (grads : Nat → Option (List ℚ)) :
    Except Candle.CErr SGD := do
  let newVars ← s.vars.mapM (stepVar s.learning_rate grads)
  return SGD.mk newVars s.learning_rate

theorem mapM_stepVar_pointwise (lr : ℚ) (grads : Nat → Option (List ℚ)) :
    ∀ (l l' : List Var), l.mapM (stepVar lr grads) = .ok l' →
      l'.length = l.length ∧
      ∀ i, i < l.length →
        stepVar lr grads (l.getD i ⟨0, []⟩) = .ok (l'.getD i ⟨0, []⟩)
  | [], l', h => by
    simp only [List.mapM_nil, Pure.pure, Except.pure, Except.ok.injEq] at h
    subst h
    exact ⟨rfl, fun i hi => absurd hi (Nat.not_lt_zero i)⟩
  | a :: as, l', h => by
    rw [List.mapM_cons] at h
    rcases ha : stepVar lr grads a with e | b <;> rw [ha] at h
    · simp [Bind.bind, Except.bind] at h
    · rcases hm : as.mapM (stepVar lr grads) with e | bs <;> rw [hm] at h
      · simp [Bind.bind, Except.bind] at h
      · simp only [Bind.bind, Except.bind, Pure.pure, Except.pure,
          Except.ok.injEq] at h
        subst h
        have ih := mapM_stepVar_pointwise lr grads as bs hm
        refine ⟨by simp [ih.1], ?_⟩
        intro i hi
        cases i with
        | zero => simpa using ha
        | succ n =>
          rw [List.getD_cons_succ, List.getD_cons_succ]
          exact ih.2 n (Nat.lt_of_succ_lt_succ hi)

theorem stepVar_none (lr : ℚ) (grads : Nat → Option (List ℚ)) (v : Var)
    (hg : grads v.id = none) : stepVar lr grads v = .ok v := by
  unfold stepVar
  rw [hg]
  rfl

theorem stepVar_some (lr : ℚ) (grads : Nat → Option (List ℚ)) (v w : Var)
    (g : List ℚ) (hg : grads v.id = some g)
    (h : stepVar lr grads v = .ok w) :
    w.id = v.id ∧
    w.value = List.zipWith (fun a b => a - b) v.value
      (List.map (fun x => x * lr) g) := by
  unfold stepVar at h
  rw [hg] at h
  simp only [] at h
  rcases hs : subSet v.value (List.map (fun x => x * lr) g) with e | nv <;>
    rw [hs] at h
  · simp [Bind.bind, Except.bind] at h
  · simp only [Bind.bind, Except.bind, Pure.pure, Except.pure,
      Except.ok.injEq] at h
    have hnv : nv = List.zipWith (fun a b => a - b) v.value
        (List.map (fun x => x * lr) g) := by
      unfold subSet at hs
      split at hs
      · exact (Except.ok.inj hs).symm
      · exact absurd hs (by simp)
    subst h
    exact ⟨rfl, hnv⟩

/-- C9: on the success path, `SGD::backward_step` maps every registered
variable with a gradient to its old value minus `learning_rate` times that
gradient (elementwise), leaves every variable without a gradient
unchanged, and preserves the variable count, their order and identities,
and the learning rate. -/
theorem backward_step_sgd (s : SGD) (grads : Nat → Option (List ℚ))
    (s' : SGD) (h : backward_step s grads = .ok s') :
    s'.learning_rate = s.learning_rate ∧
    s'.vars.length = s.vars.length ∧
    (∀ i, i < s.vars.length →
      (s'.vars.getD i ⟨0, []⟩).id = (s.vars.getD i ⟨0, []⟩).id ∧
      (grads (s.vars.getD i ⟨0, []⟩).id = none →
        s'.vars.getD i ⟨0, []⟩ = s.vars.getD i ⟨0, []⟩) ∧
      (∀ g, grads (s.vars.getD i ⟨0, []⟩).id = some g →
        (s'.vars.getD i ⟨0, []⟩).value
          = List.zipWith (fun a b => a - b) (s.vars.getD i ⟨0, []⟩).value
              (List.map (fun x => x * s.learning_rate) g))) := by
  obtain ⟨vars', lr'⟩ := s'
  unfold backward_step at h
  rcases hm : s.vars.mapM (stepVar s.learning_rate grads) with e | l' <;>
    rw [hm] at h
  · simp [Bind.bind, Except.bind] at h
  · simp only [Bind.bind, Except.bind, Pure.pure, Except.pure,
      Except.ok.injEq, SGD.mk.injEq] at h
    rcases h with ⟨rfl, rfl⟩
    have hp := mapM_stepVar_pointwise s.learning_rate grads s.vars l' hm
    refine ⟨rfl, hp.1, ?_⟩
    intro i hi
    have hstep := hp.2 i hi
    rcases hg : grads (s.vars.getD i ⟨0, []⟩).id with _ | g
    · have hv := stepVar_none s.learning_rate grads (s.vars.getD i ⟨0, []⟩) hg
      rw [hv] at hstep
      have he := Except.ok.inj hstep
      refine ⟨?_, ?_, ?_⟩
      · show (l'.getD i ⟨0, []⟩).id = (s.vars.getD i ⟨0, []⟩).id
        rw [← he]
      · intro _
        show l'.getD i ⟨0, []⟩ = s.vars.getD i ⟨0, []⟩
        rw [← he]
      · intro g hsome
        exact absurd hsome (by simp)
    · have hsv := stepVar_some s.learning_rate grads (s.vars.getD i ⟨0, []⟩)
        (l'.getD i ⟨0, []⟩) g hg hstep
      refine ⟨hsv.1, ?_, ?_⟩
      · intro hnone
        exact absurd hnone (by simp)
      · intro g' hsome
        obtain rfl : g' = g := (Option.some.inj hsome).symm
        exact hsv.2

/-- Two registered variables, one with a gradient and one without. -/
def sgd0 : SGD := ⟨[⟨1, [10, 20]⟩, ⟨2, [5]⟩], 2⟩

/-- A gradient map assigning variable 1 the gradient [1, 2]. -/
def grads0 : Nat → Option (List ℚ) :=
  fun n => if n = 1 then some [1, 2] else none

/-- The optimizer state after one `backward_step` on `sgd0`/`grads0`. -/
def sgd1 : SGD :=
  ⟨[⟨1, List.zipWith (fun a b => a - b) [10, 20]
      (List.map (fun x => x * 2) [1, 2])⟩, ⟨2, [5]⟩], 2⟩

/-- Witness for C9 at `sgd0`/`grads0`: variable 1 is updated to
`value - grad * lr`, variable 2 is untouched, the learning rate and
the order and identities of the variables survive. -/
theorem backward_step_sgd_witness :
    sgd1.learning_rate = sgd0.learning_rate ∧
    sgd1.vars.length = sgd0.vars.length ∧
    (sgd1.vars.getD 0 ⟨0, []⟩).id = (sgd0.vars.getD 0 ⟨0, []⟩).id ∧
    (sgd1.vars.getD 0 ⟨0, []⟩).value
      = List.zipWith (fun a b => a - b) (sgd0.vars.getD 0 ⟨0, []⟩).value
          (List.map (fun x => x * sgd0.learning_rate) [1, 2]) ∧
    sgd1.vars.getD 1 ⟨0, []⟩ = sgd0.vars.getD 1 ⟨0, []⟩ := by
  have h := backward_step_sgd sgd0 grads0 sgd1 rfl
  exact ⟨h.1, h.2.1, (h.2.2 0 (by decide)).1,
    (h.2.2 0 (by decide)).2.2 [1, 2] rfl,
    (h.2.2 1 (by decide)).2.1 rfl⟩

end Optim

namespace Layers

/-- Modelled from the spec: the matrix product of the standalone crate's
tensor collaborator (its `Tensor` is not under `src/`); each row of the
left operand must be as long as the right operand has rows. -/
def matmul2 (a b : List (List ℚ)) : Except Candle.CErr (List (List ℚ)) :=
  if a.all (fun row => row.length = b.length) then
    .ok (a.map (fun row =>
      (List.range b.headI.length).map (fun j =>
        (List.zipWith (fun x brow => x * brow.getD j 0) row b).sum)))
  else .error (.matmulShape [a.length] [b.length])

/-- The `Linear` layer of `src/nn/layers/linear.rs`: weight and bias, both
always stored by `Linear::new`. -/
structure Linear where
  weight : List (List ℚ)
  bias : List ℚ
  deriving DecidableEq

/-- `Linear::new` stores both tensors. -/
def Linear.new (weight : List (List ℚ)) (bias : List ℚ) : Linear :=
  ⟨weight, bias⟩

/-- `Linear::forward` from `src/nn/layers/linear.rs`: only
`tensor.matmul(&self.weight)`; the bias addition is commented out. -/
def Linear.forward (l : Linear) (tensor : List (List ℚ)) :
    Except Candle.CErr (List (List ℚ)) :=
  matmul2 tensor l.weight

/-- The `LinearT` layer of `src/nn/layers/linear.rs`. -/
structure LinearT where
  weight : List (List ℚ)
  bias : List ℚ
  deriving DecidableEq

/-- `LinearT::new` stores both tensors. -/
def LinearT.new (weight : List (List ℚ)) (bias : List ℚ) : LinearT :=
  ⟨weight, bias⟩

/-- `LinearT::forward` from `src/nn/layers/linear.rs`:
`tensor.matmul(&self.weight.t()?)` and nothing else. -/
def LinearT.forward (l : LinearT) (tensor : List (List ℚ)) :
    Except Candle.CErr (List (List ℚ)) :=
  matmul2 tensor l.weight.transpose

/-- C10: both standalone linear layers store the bias handed to `new` but
never add it: `forward` is exactly the matrix product with the (possibly
transposed) weight, and its result is unchanged under any replacement of
the stored bias. -/
theorem linear_forward_ignores_bias :
    (∀ (w : List (List ℚ)) (b b' : List ℚ) (x : List (List ℚ)),
      (Linear.new w b).bias = b ∧
      (Linear.new w b).forward x = matmul2 x w ∧
      (Linear.new w b).forward x = (Linear.new w b').forward x) ∧
    (∀ (w : List (List ℚ)) (b b' : List ℚ) (x : List (List ℚ)),
      (LinearT.new w b).bias = b ∧
      (LinearT.new w b).forward x = matmul2 x w.transpose ∧
      (LinearT.new w b).forward x = (LinearT.new w b').forward x) :=
  ⟨fun _ _ _ _ => ⟨rfl, rfl, rfl⟩, fun _ _ _ _ => ⟨rfl, rfl, rfl⟩⟩

end Layers
